import Mathlib

/-!
Verification development for the Flexisip call-forking router, B2BUA bridging
layer and account pool.  Components whose implementation ships in this
repository (trusted-host authenticator, B2BUA call-state mirroring, account
pool) are embedded directly from the source; the fork engine and the router
front-end, of which only the test suites are present here, are modelled from
the specification.
-/

namespace Flexisip

/-! ### Fork engine: cancellation status and branch state machine.

Modelled from the spec: the ForkCallContext implementation is not part of the
source tree (only its tester is).  Branch states, the cancellation-status enum
and the reaction of a fork context to a successful response or a caller CANCEL
follow sections 3, 4.4 and 5 of the specification and the observable behaviour
asserted by the fork-call tester. -/

/-- Cancellation status enum, spec section 3. -/
inductive ForkStatus
  | standard
  | acceptedElsewhere
  | declinedElsewhere
deriving DecidableEq, Repr

/-- Branch states, spec section 3: Pending, Ringing, EarlyMedia, Answered,
Cancelled(reason), Completed(final). -/
inductive BranchState
  | pending
  | ringing
  | earlyMedia
  | answered
  | cancelled (status : ForkStatus)
  | completed (code : Nat)
deriving DecidableEq, Repr

/-- A state is terminal when the branch can no longer progress. -/
def BranchState.isTerminal : BranchState → Bool
  | .pending => false
  | .ringing => false
  | .earlyMedia => false
  | _ => true

/-- One outgoing branch of a fork context.  The field observedCancel records
the cancellation status the branch listener observed (BranchInfoListener
onBranchCanceled in the tester). -/
structure Branch where
  id : Nat
  state : BranchState
  observedCancel : Option ForkStatus := none
deriving DecidableEq, Repr

/-- Translation of the Reason header of a CANCEL into a cancellation status,
spec section 3: cause 200 yields AcceptedElsewhere, cause 600 yields
DeclinedElsewhere, an absent Reason header yields Standard. -/
def cancelStatusOfReason : Option Nat → ForkStatus
  | some 200 => .acceptedElsewhere
  | some 600 => .declinedElsewhere
  | _ => .standard

/-- Cancel one branch with the given status: terminal branches are untouched,
the others move to Cancelled and their listener observes the status. -/
def cancelBranch (st : ForkStatus) (b : Branch) : Branch :=
  if b.state.isTerminal then b
  else { b with state := .cancelled st, observedCancel := some st }

/-- Events a fork context processes, in arrival order (spec section 5). -/
inductive ForkEvent
  | provisional (bid : Nat) (isRinging : Bool)
  | success (bid : Nat)
  | failure (bid : Nat) (code : Nat)
  | cancel (reasonCause : Option Nat)

/-- One step of the fork context.  A success response answers the branch and
cancels every other non-terminal branch with AcceptedElsewhere; once a branch
is answered, later successes are ignored (the first Answered wins).  A caller
CANCEL cancels every non-terminal branch with the status translated from the
Reason header. -/
def stepFork (bs : List Branch) : ForkEvent → List Branch
  | .provisional bid isRinging =>
      bs.map fun b =>
        if b.id = bid && !b.state.isTerminal then
          { b with state := if isRinging then .ringing else .earlyMedia }
        else b
  | .success bid =>
      if bs.any (fun b => b.state = .answered) then bs
      else
        bs.map fun b =>
          if b.id = bid then
            if b.state.isTerminal then b else { b with state := .answered }
          else cancelBranch .acceptedElsewhere b
  | .failure bid code =>
      bs.map fun b =>
        if b.id = bid && !b.state.isTerminal then { b with state := .completed code }
        else b
  | .cancel reasonCause => bs.map (cancelBranch (cancelStatusOfReason reasonCause))

/-- Initial branch set of a fork context: n pending branches with distinct
ids, no listener observation yet. -/
def initBranches (n : Nat) : List Branch :=
  (List.range n).map fun i => { id := i, state := .pending }

/-- Run a fork context over a list of events. -/
def runFork (events : List ForkEvent) (bs : List Branch) : List Branch :=
  events.foldl stepFork bs

/-- Number of branches currently in the Answered state. -/
def countAnswered (bs : List Branch) : Nat :=
  (bs.filter fun b => b.state = .answered).length

/-! ### Fork-late context with an early CANCEL and only offline devices.

Modelled from the spec: the fork-late handling of ForkCallContext is not part
of the source tree (only its tester is).  Spec section 4.4: when the caller
CANCELs before any branch answers and no branch has sent a success response,
the context still returns a terminal response (503 in the tested scenario)
immediately, stays open to deliver the INVITE to late-registering devices, and
cancels them; the countForks counters follow the tester expectations. -/

/-- Observable state of a fork-late call context whose target devices are all
offline, together with the countForks counters of the router module. -/
structure ForkLateState where
  countStart : Nat := 0
  countFinish : Nat := 0
  callerResponse : Option Nat := none
  callerCancelled : Bool := false
  anySuccess : Bool := false
  deviceDeliveries : List String := []
  contextOpen : Bool := false
deriving DecidableEq, Repr

/-- Events of the early-cancel, all-devices-offline scenario. -/
inductive ForkLateEvent
  | inviteArrives
  | callerCancel
  | deviceRegisters
deriving DecidableEq, Repr

/-- One step of the fork-late scenario.  The INVITE opens the context and
bumps countForks.start; a caller CANCEL before any success immediately sends
the 503 terminal response while leaving the context open; a late device
registration delivers the INVITE, then, the caller having cancelled, the
CANCEL, after which the context finalises and bumps countForks.finish. -/
def forkLateStep (s : ForkLateState) : ForkLateEvent → ForkLateState
  | .inviteArrives => { s with countStart := s.countStart + 1, contextOpen := true }
  | .callerCancel =>
      if s.contextOpen && !s.anySuccess && s.callerResponse = none then
        { s with callerResponse := some 503, callerCancelled := true }
      else s
  | .deviceRegisters =>
      if s.contextOpen then
        let delivered := s.deviceDeliveries ++ ["INVITE"]
        if s.callerCancelled then
          { s with deviceDeliveries := delivered ++ ["CANCEL"],
                   countFinish := s.countFinish + 1, contextOpen := false }
        else { s with deviceDeliveries := delivered }
      else s

/-- Run the fork-late scenario over a list of events. -/
def runForkLate (events : List ForkLateEvent) (s : ForkLateState) : ForkLateState :=
  events.foldl forkLateStep s

/-! ### Router front-end target resolution.

Modelled from the spec: the ModuleRouter implementation is not part of the
source tree (only its tester is).  Spec section 4.5 with the target ordering
fixed by scenarios 4 and 5 of section 8 and by the router tester: the branch
list is the configured static targets first, followed by the URIs of the
X-Target-Uris header when present, otherwise by the registered contacts of the
AOR of the request; the registrar is not consulted when the header is
present. -/

/-- One registrar contact binding with its absolute expiry timestamp. -/
structure RegBinding where
  aor : String
  contact : String
  expiry : Nat
deriving DecidableEq, Repr

/-- Registrar fetch: the non-expired contacts registered for the AOR. -/
def fetchContacts (reg : List RegBinding) (aor : String) (now : Nat) : List String :=
  (reg.filter fun b => b.aor = aor && decide (now < b.expiry)).map (·.contact)

/-- The parts of a routed request the front-end looks at. -/
structure RoutedRequest where
  aor : String
  xTargetUris : Option (List String)
deriving DecidableEq, Repr

/-- Target resolution of the router front-end. -/
def resolveTargets (staticTargets : List String) (reg : List RegBinding) (now : Nat)
    (req : RoutedRequest) : List String :=
  match req.xTargetUris with
  | some xs => staticTargets ++ xs
  | none => staticTargets ++ fetchContacts reg req.aor now

/-! ### Trusted-host authenticator.

Embedded from src/src/auth/trusted-host-authentifier.cc,
TrustedHostAuthentifier verify. -/

/-- Outcome an authenticator reports through the completion callback. -/
inductive AuthOutcome
  | pass
  | fail
  | continueChain
  | «end»
deriving DecidableEq, Repr

/-- The Via header fields the trusted-host authenticator reads. -/
structure ViaHeader where
  received : String
  host : String
deriving DecidableEq, Repr

/-- What a call to TrustedHostAuthentifier verify does. -/
inductive VerifyAction
  | callbackWith (outcome : AuthOutcome)
  | delegateToNext
  | noAction
deriving DecidableEq, Repr

/-- TrustedHostAuthentifier verify: take the Via received parameter, or the
Via host when received is empty; when that host is in the trusted set, invoke
the callback with Pass; otherwise delegate to the next authenticator when one
exists, and invoke the callback with End when none does.  The callback is only
invoked when it is set. -/
def trustedHostVerify (trustedHosts : List String) (via : ViaHeader)
    (hasNextAuth : Bool) (hasCallback : Bool) : VerifyAction :=
  let printableReceivedHost := if !(via.received = "") then via.received else via.host
  if printableReceivedHost ∈ trustedHosts then
    if hasCallback then .callbackWith .pass else .noAction
  else if hasNextAuth then .delegateToNext
  else if hasCallback then .callbackWith .«end» else .noAction

/-! ### B2BUA mediator: reaction to PausedByRemote.

Embedded from src/src/b2bua/b2bua-server.cc, B2buaServer onCallStateChanged,
case linphone Call State PausedByRemote. -/

/-- The linphone call states the PausedByRemote case distinguishes. -/
inductive CallState
  | incomingReceived
  | streamsRunning
  | pausedByRemote
  | otherState
deriving DecidableEq, Repr

/-- Media directions of the audio stream. -/
inductive MediaDirection
  | sendRecv
  | sendOnly
  | recvOnly
  | inactive
deriving DecidableEq, Repr

/-- What the PausedByRemote case observes about the peer leg. -/
structure PeerLeg where
  state : CallState
  audioDirection : MediaDirection
deriving DecidableEq, Repr

/-- Actions the PausedByRemote case can take. -/
inductive PausedByRemoteAction
  | terminateBoth
  | updatePeerAudio (d : MediaDirection)
  | noUpdate
  | noPeer
deriving DecidableEq, Repr

/-- B2buaServer onCallStateChanged, PausedByRemote case: when the peer leg is
missing do nothing; when the peer leg is itself PausedByRemote terminate both
legs; otherwise switch the peer audio direction to SendOnly unless it already
is Inactive or SendOnly, in which case no update is issued. -/
def onPausedByRemote (peer : Option PeerLeg) : PausedByRemoteAction :=
  match peer with
  | none => .noPeer
  | some p =>
      if p.state = .pausedByRemote then .terminateBoth
      else if p.audioDirection ≠ .inactive && p.audioDirection ≠ .sendOnly then
        .updatePeerAudio .sendOnly
      else .noUpdate

/-! ### Account pool.

Embedded from src/src/b2bua/sip-bridge/accounts/account-pool.cc and its
header.  Accounts live behind shared pointers that every view aliases; the
embedding gives each account a numeric id and keeps the account data in a
store keyed by id, so that an in-place update is visible through every view
binding. -/

/-- A parsed SIP address (identity address of an account). -/
structure Address where
  user : String
  domain : String
deriving DecidableEq, Repr

/-- Printable form of an address, as used by the uri formatter field. -/
def Address.asString (a : Address) : String := "sip:" ++ a.user ++ "@" ++ a.domain

/-- Split a character list at the first occurrence of a separator. -/
def breakAtChar (c : Char) : List Char → Option (List Char × List Char)
  | [] => none
  | x :: xs =>
      if x = c then some ([], xs)
      else
        match breakAtChar c xs with
        | none => none
        | some (l, r) => some (x :: l, r)

/-- Model of linphone createAddress on well-formed sip uris: strip the scheme
and split user from domain at the at-sign. -/
def parseAddr (s : String) : Address :=
  let rest : List Char :=
    match s.data with
    | 's' :: 'i' :: 'p' :: ':' :: cs => cs
    | cs => cs
  match breakAtChar '@' rest with
  | some (u, d) => { user := { data := u }, domain := { data := d } }
  | none => { user := { data := rest }, domain := "" }

/-- Secret types of config v2 accounts. -/
inductive SecretType
  | md5
  | sha256
  | cleartext
deriving DecidableEq, Repr

/-- A config v2 account description, as returned by the loader. -/
structure AccountDesc where
  uri : String
  userid : String
  secretType : SecretType
  secret : String
  realm : String
  aliasName : String
  outboundProxy : String
deriving DecidableEq, Repr

/-- The mutable data of a pooled Account: its linphone account params
(identity address, outbound proxy) and the bridge-level fields. -/
structure AccountData where
  uri : Address
  aliasName : String
  outboundProxy : String
  registered : Bool := false
  currentCalls : Nat := 0
  maxCalls : Nat := 0
deriving DecidableEq, Repr

/-- Availability predicate of an account: registered and below its
max-concurrent-calls quota. -/
def AccountData.isAvailable (a : AccountData) : Bool :=
  a.registered && decide (a.currentCalls < a.maxCalls)

/-- An auth info entry of the linphone core. -/
structure AuthInfo where
  username : String
  userid : String
  domain : String
  algorithm : String
  ha1 : String
  password : String
  realm : String
deriving DecidableEq, Repr

/-- AccountPool handlePassword: when the account description carries a
secret, build an auth info for (username, userid, domain), fill it according
to the secret type, set its realm (domain when the description has none) and
add it to the core. -/
def handlePassword (desc : AccountDesc) (addr : Address) (authInfos : List AuthInfo) :
    List AuthInfo :=
  if desc.secret = "" then authInfos
  else
    let base : AuthInfo :=
      { username := addr.user, userid := desc.userid, domain := addr.domain,
        algorithm := "", ha1 := "", password := "", realm := "" }
    let filled :=
      match desc.secretType with
      | .md5 => { base with algorithm := "MD5", ha1 := desc.secret }
      | .sha256 => { base with algorithm := "SHA-256", ha1 := desc.secret }
      | .cleartext => { base with password := desc.secret }
    let withRealm := { filled with realm := if desc.realm = "" then addr.domain else desc.realm }
    authInfos ++ [withRealm]

/-- Core findAuthInfo with empty realm followed by removeAuthInfo: drop the
first auth info matching the username and domain, when one exists. -/
def removeFirstAuthInfo (u d : String) : List AuthInfo → List AuthInfo
  | [] => []
  | ai :: rest =>
      if ai.username = u && ai.domain = d then rest
      else ai :: removeFirstAuthInfo u d rest

/-- Pieces of an indexed-view template: literal text or a field reference. -/
inductive TemplatePiece
  | lit (s : String)
  | fieldUri
  | fieldUser
  | fieldAlias
deriving DecidableEq, Repr

/-- Value of one template piece on an account. -/
def formatPiece (a : AccountData) : TemplatePiece → String
  | .lit s => s
  | .fieldUri => a.uri.asString
  | .fieldUser => a.uri.user
  | .fieldAlias => a.aliasName

/-- TemplateFormatter format: interpolate the template over the account. -/
def formatAccount (tmpl : List TemplatePiece) (a : AccountData) : String :=
  (tmpl.map (formatPiece a)).foldl (· ++ ·) ""

/-- The default view template, the literal string with the uri field. -/
def defaultTemplate : List TemplatePiece := [.fieldUri]

/-- A view map: formatted key to account id.  Keys are unique. -/
abbrev AccountMap := List (String × Nat)

/-- Lookup in a view map. -/
def mapLookup (k : String) (m : AccountMap) : Option Nat :=
  (m.find? fun p => p.1 = k).map (·.2)

/-- unordered_map erase by key. -/
def mapErase (k : String) (m : AccountMap) : AccountMap :=
  m.filter fun p => !(p.1 = k)

/-- unordered_map emplace: on a key collision the new binding is discarded
and the existing binding is left untouched. -/
def mapEmplace (k : String) (v : Nat) (m : AccountMap) : AccountMap :=
  if m.any (fun p => p.1 = k) then m else m ++ [(k, v)]

/-- A secondary indexed view: its formatter template and its map. -/
structure IndexedView where
  tmpl : List TemplatePiece
  view : AccountMap
deriving DecidableEq, Repr

/-- The whole state an AccountPool update touches: the account heap, the
default view, the secondary views, the accounts and auth infos of the core,
and the registration queue. -/
structure PoolState where
  maxCallsPerLine : Nat
  store : List (Nat × AccountData)
  defaultView : AccountMap
  views : List IndexedView
  coreAccounts : List Nat
  authInfos : List AuthInfo
  queue : List Nat
  nextId : Nat
deriving DecidableEq, Repr

/-- Dereference an account id in the heap. -/
def storeLookup (aid : Nat) (store : List (Nat × AccountData)) : Option AccountData :=
  (store.find? fun p => p.1 = aid).map (·.2)

/-- Overwrite the data of an account id in the heap (shared-pointer mutation). -/
def storeUpdate (aid : Nat) (d : AccountData) (store : List (Nat × AccountData)) :
    List (Nat × AccountData) :=
  store.map fun p => if p.1 = aid then (p.1, d) else p

/-- AccountPool setupNewAccount: build the account params (identity address
from the description uri, outbound proxy), register its credentials with the
core, create the Account with the pool max-calls-per-line and the description
alias, and enqueue it on the registration queue.  An empty uri is a fatal
configuration error and changes nothing here. -/
def setupNewAccount (s : PoolState) (desc : AccountDesc) : PoolState :=
  if desc.uri = "" then s
  else
    let addr := parseAddr desc.uri
    let data : AccountData :=
      { uri := addr, aliasName := desc.aliasName, outboundProxy := desc.outboundProxy,
        maxCalls := s.maxCallsPerLine }
    { s with
      authInfos := handlePassword desc addr s.authInfos,
      store := s.store ++ [(s.nextId, data)],
      queue := s.queue ++ [s.nextId],
      nextId := s.nextId + 1 }

/-- AccountPool onAccountUpdate.  A missing account record deletes the
account: it is removed from the core, unbound from every secondary view and
erased from the default view.  A record whose uri differs from the published
uri aborts the operation.  A record for an unknown uri creates and enqueues a
new account.  Otherwise the existing account is updated in place (alias,
identity address, outbound proxy, credentials), and in every secondary view
whose key for the account changed, the old binding is erased and a binding
under the new key is emplaced (a collision discards the new binding). -/
def onAccountUpdate (s : PoolState) (uri : String) (accountToUpdate : Option AccountDesc) :
    PoolState :=
  match accountToUpdate with
  | none =>
      match mapLookup uri s.defaultView with
      | none => s
      | some aid =>
          match storeLookup aid s.store with
          | none => s
          | some account =>
              { s with
                coreAccounts := s.coreAccounts.filter fun i => !(i = aid),
                views := s.views.map fun v =>
                  { v with view := mapErase (formatAccount v.tmpl account) v.view },
                defaultView := mapErase uri s.defaultView }
  | some desc =>
      if uri ≠ desc.uri then s
      else
        match mapLookup desc.uri s.defaultView with
        | none => setupNewAccount s desc
        | some aid =>
            match storeLookup aid s.store with
            | none => s
            | some oldData =>
                let previousKeys := s.views.map fun v => formatAccount v.tmpl oldData
                let addr := parseAddr desc.uri
                let newData :=
                  { oldData with
                    aliasName := desc.aliasName, uri := addr, outboundProxy := desc.outboundProxy }
                let authInfos' :=
                  handlePassword desc addr
                    (removeFirstAuthInfo addr.user addr.domain s.authInfos)
                let views' := (s.views.zip previousKeys).map fun vp =>
                  let newKey := formatAccount vp.1.tmpl newData
                  if newKey = vp.2 then vp.1
                  else { vp.1 with view := mapEmplace newKey aid (mapErase vp.2 vp.1.view) }
                { s with
                  store := storeUpdate aid newData s.store,
                  authInfos := authInfos',
                  views := views' }

/-! ### Random account selection.

Embedded from src/src/b2bua/sip-bridge/accounts/account-pool.cc,
AccountPool getAccountRandomly: the pool (the default view) is probed
linearly with wraparound starting at a random index, for at most size
steps. -/

/-- One linear probe over the pool with wraparound, consuming one unit of
fuel per inspected account. -/
def probePool (pool : List AccountData) (idx : Nat) : Nat → Option AccountData
  | 0 => none
  | fuel + 1 =>
      match pool.get? (idx % pool.length) with
      | none => none
      | some a => if a.isAvailable then some a else probePool pool (idx + 1) fuel

/-- AccountPool getAccountRandomly, with the value of rand made explicit:
an empty pool yields none; otherwise probe linearly from seed modulo the pool
size for at most size steps. -/
def getAccountRandomly (pool : List AccountData) (seed : Nat) : Option AccountData :=
  if pool.length = 0 then none
  else probePool pool (seed % pool.length) pool.length

/-! ### Concrete data used to exercise the definitions. -/

/-- Account of the collision scenario holding the alias key the update will
migrate onto. -/
def accountHoldingKey : AccountData :=
  { uri := { user := "a", domain := "h" }, aliasName := "x", outboundProxy := "" }

/-- Account of the collision scenario whose alias is updated. -/
def accountBeingUpdated : AccountData :=
  { uri := { user := "b", domain := "h" }, aliasName := "y", outboundProxy := "" }

/-- Pool state for the collision scenario: two accounts, a secondary view
indexed by alias with one binding per account. -/
def collisionState : PoolState :=
  { maxCallsPerLine := 2,
    store := [(0, accountHoldingKey), (1, accountBeingUpdated)],
    defaultView := [("sip:a@h", 0), ("sip:b@h", 1)],
    views := [{ tmpl := [.fieldAlias], view := [("x", 0), ("y", 1)] }],
    coreAccounts := [0, 1],
    authInfos := [],
    queue := [],
    nextId := 2 }

/-- Updated description of the second account: its alias moves from y to x,
which collides with the first account in the alias view. -/
def collisionDesc : AccountDesc :=
  { uri := "sip:b@h", userid := "", secretType := .cleartext, secret := "", realm := "",
    aliasName := "x", outboundProxy := "" }

/-- The in-place mutation an account undergoes on an update: new alias, new
identity address built from the description uri, new outbound proxy. -/
def updatedData (old : AccountData) (desc : AccountDesc) : AccountData :=
  { old with
    aliasName := desc.aliasName, uri := parseAddr desc.uri,
    outboundProxy := desc.outboundProxy }

/-- A registered account below its quota. -/
def availableAccount : AccountData :=
  { uri := { user := "ok", domain := "h" }, aliasName := "", outboundProxy := "",
    registered := true, currentCalls := 0, maxCalls := 1 }

/-- A registered account that reached its quota. -/
def saturatedAccount : AccountData :=
  { uri := { user := "busy", domain := "h" }, aliasName := "", outboundProxy := "",
    registered := true, currentCalls := 1, maxCalls := 1 }

/-! ## Fork engine lemmas -/

theorem cancelBranch_id (st : ForkStatus) (b : Branch) : (cancelBranch st b).id = b.id := by
  unfold cancelBranch
  split <;> rfl

theorem map_map_id_of_id_preserved {f : Branch → Branch} (h : ∀ b, (f b).id = b.id)
    (bs : List Branch) : (bs.map f).map Branch.id = bs.map Branch.id := by
  induction bs with
  | nil => rfl
  | cons b t ih => simp [h, ih]

/-- Every fork event preserves the ids of the branch set. -/
theorem stepFork_map_id (bs : List Branch) (e : ForkEvent) :
    (stepFork bs e).map Branch.id = bs.map Branch.id := by
  cases e with
  | provisional bid isRinging =>
      simp only [stepFork]
      apply map_map_id_of_id_preserved
      intro b
      dsimp only
      split <;> rfl
  | success bid =>
      simp only [stepFork]
      split
      · rfl
      · apply map_map_id_of_id_preserved
        intro b
        dsimp only
        split
        · split <;> rfl
        · exact cancelBranch_id _ _
  | failure bid code =>
      simp only [stepFork]
      apply map_map_id_of_id_preserved
      intro b
      dsimp only
      split <;> rfl
  | cancel reasonCause =>
      simp only [stepFork]
      apply map_map_id_of_id_preserved
      intro b
      exact cancelBranch_id _ _

theorem countAnswered_eq_countP (bs : List Branch) :
    countAnswered bs = bs.countP fun b => decide (b.state = .answered) := by
  rw [countAnswered, List.countP_eq_length_filter]

/-- A cancelled branch is answered only when it already was. -/
theorem cancelBranch_answered (st : ForkStatus) (b : Branch) :
    (cancelBranch st b).state = .answered ↔ b.state = .answered := by
  unfold cancelBranch
  split
  · exact Iff.rfl
  · next hterm =>
      constructor
      · intro h
        exact absurd h (by simp)
      · intro h
        rw [h] at hterm
        exact absurd rfl hterm

theorem countAnswered_map_eq {f : Branch → Branch}
    (h : ∀ b ∈ bs, ((f b).state = .answered ↔ b.state = .answered)) :
    countAnswered (bs.map f) = countAnswered bs := by
  rw [countAnswered_eq_countP, countAnswered_eq_countP, List.countP_map]
  apply List.countP_congr
  intro b hb
  simpa using h b hb

/-- One fork event keeps the number of answered branches at most one, for a
branch set with distinct ids. -/
theorem countAnswered_stepFork_le (bs : List Branch) (e : ForkEvent)
    (hnd : (bs.map Branch.id).Nodup) (h1 : countAnswered bs ≤ 1) :
    countAnswered (stepFork bs e) ≤ 1 := by
  cases e with
  | provisional bid isRinging =>
      simp only [stepFork]
      refine (countAnswered_map_eq ?_).trans_le h1
      intro b _
      dsimp only
      split
      · next hc =>
        simp only [Bool.and_eq_true, decide_eq_true_eq, Bool.not_eq_true'] at hc
        constructor
        · intro h
          split at h <;> exact absurd h (by simp)
        · intro h
          rw [h] at hc
          exact absurd hc.2 (by simp [BranchState.isTerminal])
      · exact Iff.rfl
  | success bid =>
      simp only [stepFork]
      split
      · exact h1
      · next hany =>
        have hnoans : ∀ b ∈ bs, ¬(b.state = .answered) := by
          intro b hb hans
          exact hany (List.any_eq_true.mpr ⟨b, hb, by simp [hans]⟩)
        rw [countAnswered_eq_countP, List.countP_map]
        refine le_trans (List.countP_mono_left (q := fun b => b.id == bid) ?_) ?_
        · intro b hb hans
          simp only [Function.comp_apply, decide_eq_true_eq] at hans
          by_cases hid : b.id = bid
          · simp [hid]
          · exfalso
            rw [if_neg hid] at hans
            exact hnoans b hb ((cancelBranch_answered _ _).mp hans)
        · have hcount : (bs.countP fun b => b.id == bid) =
              List.count bid (bs.map Branch.id) := by
            rw [List.count_eq_countP, List.countP_map]
            rfl
          rw [hcount]
          exact List.nodup_iff_count_le_one.mp hnd bid
  | failure bid code =>
      simp only [stepFork]
      refine (countAnswered_map_eq ?_).trans_le h1
      intro b _
      dsimp only
      split
      · next hc =>
        simp only [Bool.and_eq_true, decide_eq_true_eq, Bool.not_eq_true'] at hc
        constructor
        · intro h
          exact absurd h (by simp)
        · intro h
          rw [h] at hc
          exact absurd hc.2 (by simp [BranchState.isTerminal])
      · exact Iff.rfl
  | cancel reasonCause =>
      simp only [stepFork]
      refine (countAnswered_map_eq ?_).trans_le h1
      intro b _
      exact cancelBranch_answered _ b

theorem runFork_invariant (events : List ForkEvent) (bs : List Branch)
    (hnd : (bs.map Branch.id).Nodup) (h1 : countAnswered bs ≤ 1) :
    countAnswered (runFork events bs) ≤ 1 := by
  induction events generalizing bs with
  | nil => exact h1
  | cons e es ih =>
      rw [runFork, List.foldl_cons]
      exact ih (stepFork bs e)
        (by rw [stepFork_map_id]; exact hnd)
        (countAnswered_stepFork_le bs e hnd h1)

theorem initBranches_ids_nodup (n : Nat) : ((initBranches n).map Branch.id).Nodup := by
  unfold initBranches
  rw [List.map_map]
  have : (Branch.id ∘ fun i => ({ id := i, state := .pending } : Branch)) = id := by
    funext i
    rfl
  rw [this, List.map_id]
  exact List.nodup_range n

theorem countAnswered_initBranches (n : Nat) : countAnswered (initBranches n) = 0 := by
  rw [countAnswered_eq_countP, initBranches, List.countP_map]
  apply List.countP_eq_zero.mpr
  intro i _
  simp

/-- C1: for every fork context, at most one branch ever reaches the Answered
state over any sequence of events; and at the moment a branch enters Answered
(a success response arrives while no branch is answered yet), every other
branch that is not yet in a terminal state transitions to Cancelled with
cancellation status AcceptedElsewhere, which that branch's listener
observes. -/
theorem forkCall_atMostOneAnswered_cancelsPeersAcceptedElsewhere :
    (∀ (n : Nat) (events : List ForkEvent),
        countAnswered (runFork events (initBranches n)) ≤ 1) ∧
    (∀ (bs : List Branch) (bid : Nat) (b : Branch),
        (∀ b' ∈ bs, b'.state ≠ .answered) → b ∈ bs → b.id ≠ bid →
        b.state.isTerminal = false →
        ∃ b' ∈ stepFork bs (.success bid),
          b'.id = b.id ∧ b'.state = .cancelled .acceptedElsewhere ∧
          b'.observedCancel = some .acceptedElsewhere) := by
  constructor
  · intro n events
    refine runFork_invariant events _ (initBranches_ids_nodup n) ?_
    rw [countAnswered_initBranches]
    exact Nat.zero_le 1
  · intro bs bid b hnone hb hid hterm
    have hany : (bs.any fun b => decide (b.state = .answered)) = false := by
      rw [List.any_eq_false]
      intro x hx
      simp [hnone x hx]
    refine ⟨cancelBranch .acceptedElsewhere b, ?_, cancelBranch_id _ _, ?_, ?_⟩
    · simp only [stepFork, hany, Bool.false_eq_true, if_false]
      refine List.mem_map.mpr ⟨b, hb, ?_⟩
      rw [if_neg hid]
    · simp [cancelBranch, hterm]
    · simp [cancelBranch, hterm]

/-- Witness for C1 at a two-branch context where branch 0 answers. -/
theorem forkCall_atMostOneAnswered_cancelsPeersAcceptedElsewhere_witness :
    countAnswered (runFork [ForkEvent.success 0] (initBranches 2)) ≤ 1 ∧
    (∃ b' ∈ stepFork (initBranches 2) (.success 0),
        b'.id = 1 ∧ b'.state = .cancelled .acceptedElsewhere ∧
        b'.observedCancel = some .acceptedElsewhere) := by
  constructor
  · exact forkCall_atMostOneAnswered_cancelsPeersAcceptedElsewhere.1 2 [ForkEvent.success 0]
  · have h := forkCall_atMostOneAnswered_cancelsPeersAcceptedElsewhere.2
      (initBranches 2) 0 { id := 1, state := .pending }
      (by decide) (by decide) (by decide) (by decide)
    simpa using h

/-- C2: a CANCEL processed by a fork context cancels each non-terminal branch
with the status derived from the Reason header of the CANCEL: cause 200 gives
AcceptedElsewhere, cause 600 gives DeclinedElsewhere, an absent Reason header
gives Standard; the listener of the branch observes the status. -/
theorem forkCall_cancelStatusDerivedFromReason :
    (cancelStatusOfReason (some 200) = .acceptedElsewhere ∧
     cancelStatusOfReason (some 600) = .declinedElsewhere ∧
     cancelStatusOfReason none = .standard) ∧
    (∀ (bs : List Branch) (cause : Option Nat) (b : Branch),
        b ∈ bs → b.state.isTerminal = false →
        ∃ b' ∈ stepFork bs (.cancel cause),
          b'.id = b.id ∧ b'.state = .cancelled (cancelStatusOfReason cause) ∧
          b'.observedCancel = some (cancelStatusOfReason cause)) := by
  refine ⟨⟨rfl, rfl, rfl⟩, ?_⟩
  intro bs cause b hb hterm
  refine ⟨cancelBranch (cancelStatusOfReason cause) b, ?_, cancelBranch_id _ _, ?_, ?_⟩
  · simp only [stepFork]
    exact List.mem_map_of_mem _ hb
  · simp [cancelBranch, hterm]
  · simp [cancelBranch, hterm]

/-- Witness for C2 at a single pending branch and each of the three Reason
header shapes. -/
theorem forkCall_cancelStatusDerivedFromReason_witness :
    cancelStatusOfReason (some 200) = .acceptedElsewhere ∧
    (∃ b' ∈ stepFork (initBranches 1) (.cancel (some 600)),
        b'.id = 0 ∧ b'.state = .cancelled .declinedElsewhere ∧
        b'.observedCancel = some .declinedElsewhere) := by
  constructor
  · exact forkCall_cancelStatusDerivedFromReason.1.1
  · have h := forkCall_cancelStatusDerivedFromReason.2
      (initBranches 1) (some 600) { id := 0, state := .pending }
      (by decide) (by decide)
    simpa using h

/-! ## Fork-late early-cancel scenario -/

theorem forkLateStep_closed_deviceRegisters (s : ForkLateState) (h : s.contextOpen = false) :
    forkLateStep s .deviceRegisters = s := by
  simp [forkLateStep, h]

theorem runForkLate_closed_deviceRegisters (k : Nat) (s : ForkLateState)
    (h : s.contextOpen = false) :
    runForkLate (List.replicate k .deviceRegisters) s = s := by
  induction k with
  | zero => rfl
  | succ k ih =>
      rw [List.replicate_succ, runForkLate, List.foldl_cons,
        forkLateStep_closed_deviceRegisters s h]
      exact ih

/-- C3: in a fork-late call context whose target devices are all offline,
when the caller CANCELs before any branch has sent a success response the
context immediately returns the terminal 503 response to the caller and
remains open with countForks.finish still 0 and countForks.start 1; when a
device later registers it receives the INVITE followed by the CANCEL, after
which the context finalises exactly once: countForks.finish becomes 1 and no
further device registration changes it. -/
theorem forkLate_earlyCancelOfflineDevices :
    (runForkLate [.inviteArrives, .callerCancel] {}).callerResponse = some 503 ∧
    (runForkLate [.inviteArrives, .callerCancel] {}).countStart = 1 ∧
    (runForkLate [.inviteArrives, .callerCancel] {}).countFinish = 0 ∧
    (runForkLate [.inviteArrives, .callerCancel] {}).contextOpen = true ∧
    (forkLateStep (runForkLate [.inviteArrives, .callerCancel] {})
        .deviceRegisters).deviceDeliveries = ["INVITE", "CANCEL"] ∧
    (forkLateStep (runForkLate [.inviteArrives, .callerCancel] {})
        .deviceRegisters).countStart = 1 ∧
    (forkLateStep (runForkLate [.inviteArrives, .callerCancel] {})
        .deviceRegisters).countFinish = 1 ∧
    ∀ k, (runForkLate (List.replicate k .deviceRegisters)
        (forkLateStep (runForkLate [.inviteArrives, .callerCancel] {})
          .deviceRegisters)).countFinish = 1 := by
  refine ⟨rfl, rfl, rfl, rfl, rfl, rfl, rfl, ?_⟩
  intro k
  rw [runForkLate_closed_deviceRegisters k _ rfl]
  rfl

/-! ## Router front-end target resolution -/

/-- C4: an INVITE routed with static targets configured and no X-Target-Uris
header branches to exactly the configured static targets in configuration
order followed by the registered contacts of the AOR of the request, in that
order. -/
theorem router_staticTargetsThenAorContacts (staticTargets : List String)
    (reg : List RegBinding) (now : Nat) (req : RoutedRequest)
    (h : req.xTargetUris = none) :
    resolveTargets staticTargets reg now req =
      staticTargets ++ fetchContacts reg req.aor now := by
  simp [resolveTargets, h]

/-- Witness for C4 on the router tester scenario: static targets sTarget and
sTargetBis, one registered callee contact. -/
theorem router_staticTargetsThenAorContacts_witness :
    resolveTargets ["sip:sTarget@127.0.0.1:0", "sip:sTargetBis@127.0.0.1:0"]
        [{ aor := "sip:callee@localhost", contact := "sip:callee@127.0.0.1:0", expiry := 60 }]
        0 { aor := "sip:callee@localhost", xTargetUris := none } =
      ["sip:sTarget@127.0.0.1:0", "sip:sTargetBis@127.0.0.1:0", "sip:callee@127.0.0.1:0"] := by
  rw [router_staticTargetsThenAorContacts _ _ _ _ rfl]
  rfl

/-- C5: an INVITE carrying an X-Target-Uris header branches to exactly the
configured static targets followed by the URIs of the header; the registrar
contact set of the AOR of the request is not consulted: the outgoing set does
not depend on the registrar, and no branch targets a registered contact of the
AOR that is neither a static target nor listed in the header. -/
theorem router_xTargetUrisOverrideAor (staticTargets : List String)
    (reg : List RegBinding) (now : Nat) (req : RoutedRequest) (xs : List String)
    (h : req.xTargetUris = some xs) :
    resolveTargets staticTargets reg now req = staticTargets ++ xs ∧
    (∀ reg', resolveTargets staticTargets reg' now req =
        resolveTargets staticTargets reg now req) ∧
    (∀ c ∈ fetchContacts reg req.aor now, c ∉ staticTargets → c ∉ xs →
        c ∉ resolveTargets staticTargets reg now req) := by
  have hmain : ∀ reg' : List RegBinding,
      resolveTargets staticTargets reg' now req = staticTargets ++ xs := by
    intro reg'
    simp [resolveTargets, h]
  refine ⟨hmain reg, fun reg' => (hmain reg').trans (hmain reg).symm, ?_⟩
  intro c _ hcs hcx
  rw [hmain reg]
  intro hc
  rcases List.mem_append.mp hc with hmem | hmem
  · exact hcs hmem
  · exact hcx hmem

/-- Witness for C5 on the router tester scenario: static targets then the two
X-Target-Uris entries, and the registered callee contact never branched
to. -/
theorem router_xTargetUrisOverrideAor_witness :
    resolveTargets ["sip:sTarget@127.0.0.1:0", "sip:sTargetBis@127.0.0.1:0"]
        [{ aor := "sip:callee@localhost", contact := "sip:callee@127.0.0.1:0", expiry := 60 }]
        0 { aor := "sip:callee@localhost",
            xTargetUris := some ["sip:xTarget@127.0.0.1:0", "sip:xTargetBis@127.0.0.1:0"] } =
      ["sip:sTarget@127.0.0.1:0", "sip:sTargetBis@127.0.0.1:0",
       "sip:xTarget@127.0.0.1:0", "sip:xTargetBis@127.0.0.1:0"] ∧
    "sip:callee@127.0.0.1:0" ∉
      resolveTargets ["sip:sTarget@127.0.0.1:0", "sip:sTargetBis@127.0.0.1:0"]
        [{ aor := "sip:callee@localhost", contact := "sip:callee@127.0.0.1:0", expiry := 60 }]
        0 { aor := "sip:callee@localhost",
            xTargetUris := some ["sip:xTarget@127.0.0.1:0", "sip:xTargetBis@127.0.0.1:0"] } := by
  have h := router_xTargetUrisOverrideAor
    ["sip:sTarget@127.0.0.1:0", "sip:sTargetBis@127.0.0.1:0"]
    [{ aor := "sip:callee@localhost", contact := "sip:callee@127.0.0.1:0", expiry := 60 }]
    0 { aor := "sip:callee@localhost",
        xTargetUris := some ["sip:xTarget@127.0.0.1:0", "sip:xTargetBis@127.0.0.1:0"] }
    ["sip:xTarget@127.0.0.1:0", "sip:xTargetBis@127.0.0.1:0"] rfl
  exact ⟨h.1, h.2.2 _ (by decide) (by decide) (by decide)⟩

/-! ## Trusted-host authenticator -/

/-- C6: for a request verified by the trusted-host authenticator, when the
Via received parameter (or the Via host when received is empty) is in the
configured trusted set, the completion callback is invoked with outcome Pass
and the chain is short-circuited (the next authenticator is not invoked);
otherwise the next authenticator in the chain is invoked when one exists, and
when none exists the callback is invoked with outcome End. -/
theorem trustedHost_verifyChain (trustedHosts : List String) (via : ViaHeader)
    (hasNextAuth hasCallback : Bool) :
    ((if via.received = "" then via.host else via.received) ∈ trustedHosts →
        hasCallback = true →
        trustedHostVerify trustedHosts via hasNextAuth hasCallback = .callbackWith .pass ∧
        trustedHostVerify trustedHosts via hasNextAuth hasCallback ≠ .delegateToNext) ∧
    ((if via.received = "" then via.host else via.received) ∉ trustedHosts →
        hasNextAuth = true →
        trustedHostVerify trustedHosts via hasNextAuth hasCallback = .delegateToNext) ∧
    ((if via.received = "" then via.host else via.received) ∉ trustedHosts →
        hasNextAuth = false → hasCallback = true →
        trustedHostVerify trustedHosts via hasNextAuth hasCallback =
          .callbackWith .«end») := by
  refine ⟨fun hmem hcb => ?_, fun hmem hnext => ?_, fun hmem hnext hcb => ?_⟩ <;>
    by_cases hr : via.received = "" <;>
      simp only [hr, reduceIte] at hmem <;>
        simp [trustedHostVerify, hr, hmem, *]

/-- Witness for C6: a trusted source address, an untrusted one with a next
authenticator, and an untrusted one at the end of the chain. -/
theorem trustedHost_verifyChain_witness :
    (trustedHostVerify ["1.2.3.4"] { received := "1.2.3.4", host := "h" } true true =
        .callbackWith .pass ∧
      trustedHostVerify ["1.2.3.4"] { received := "1.2.3.4", host := "h" } true true ≠
        .delegateToNext) ∧
    trustedHostVerify ["1.2.3.4"] { received := "5.6.7.8", host := "h" } true true =
      .delegateToNext ∧
    trustedHostVerify ["1.2.3.4"] { received := "5.6.7.8", host := "h" } false true =
      .callbackWith .«end» := by
  refine ⟨(trustedHost_verifyChain ["1.2.3.4"] _ true true).1 (by decide) rfl,
    (trustedHost_verifyChain ["1.2.3.4"] _ true true).2.1 (by decide) rfl,
    (trustedHost_verifyChain ["1.2.3.4"] _ false true).2.2 (by decide) rfl rfl⟩

/-! ## B2BUA PausedByRemote mirroring -/

/-- C7: when one leg of a B2BUA call pair enters PausedByRemote, the peer leg
is terminated together with this leg when it is itself in PausedByRemote;
otherwise the peer audio direction is set to SendOnly, unless it is already
SendOnly or Inactive, in which case no update is issued. -/
theorem b2bua_pausedByRemote (p : PeerLeg) :
    (p.state = .pausedByRemote → onPausedByRemote (some p) = .terminateBoth) ∧
    (p.state ≠ .pausedByRemote → p.audioDirection ≠ .sendOnly →
        p.audioDirection ≠ .inactive →
        onPausedByRemote (some p) = .updatePeerAudio .sendOnly) ∧
    (p.state ≠ .pausedByRemote →
        (p.audioDirection = .sendOnly ∨ p.audioDirection = .inactive) →
        onPausedByRemote (some p) = .noUpdate) := by
  obtain ⟨st, ad⟩ := p
  cases st <;> cases ad <;> decide

/-- Witness for C7: both legs paused, a paused peer with running audio, and a
paused peer already on SendOnly. -/
theorem b2bua_pausedByRemote_witness :
    onPausedByRemote (some { state := .pausedByRemote, audioDirection := .sendRecv }) =
        .terminateBoth ∧
    onPausedByRemote (some { state := .streamsRunning, audioDirection := .sendRecv }) =
        .updatePeerAudio .sendOnly ∧
    onPausedByRemote (some { state := .streamsRunning, audioDirection := .sendOnly }) =
        .noUpdate := by
  refine ⟨(b2bua_pausedByRemote _).1 rfl,
    (b2bua_pausedByRemote _).2.1 (by decide) (by decide) (by decide),
    (b2bua_pausedByRemote _).2.2 (by decide) (Or.inl rfl)⟩

/-! ## Random account selection -/

/-- Whatever the probe returns belongs to the pool and is available. -/
theorem probePool_sound (pool : List AccountData) :
    ∀ (fuel idx : Nat) (a : AccountData), probePool pool idx fuel = some a →
      a ∈ pool ∧ a.isAvailable = true := by
  intro fuel
  induction fuel with
  | zero =>
      intro idx a h
      exact absurd h (by simp [probePool])
  | succ fuel ih =>
      intro idx a h
      rw [probePool] at h
      split at h
      · exact absurd h (by simp)
      · next a0 hg =>
          split at h
          · next hav =>
              cases h
              exact ⟨List.get?_mem hg, hav⟩
          · exact ih _ a h

/-- When some probed slot within the fuel bound holds an available account,
the probe finds one. -/
theorem probePool_complete (pool : List AccountData) :
    ∀ (fuel idx : Nat),
      (∃ j < fuel, ∃ a, pool.get? ((idx + j) % pool.length) = some a ∧
          a.isAvailable = true) →
      (probePool pool idx fuel).isSome = true := by
  intro fuel
  induction fuel with
  | zero =>
      rintro idx ⟨j, hj, -⟩
      omega
  | succ fuel ih =>
      rintro idx ⟨j, hj, a, hg, hav⟩
      rw [probePool]
      split
      · next hg0 =>
          exfalso
          have hlen : pool.length = 0 := by
            by_contra hne
            have hlt : idx % pool.length < pool.length :=
              Nat.mod_lt _ (Nat.pos_of_ne_zero hne)
            rw [List.get?_eq_none] at hg0
            omega
          have hnil : pool = [] := List.length_eq_zero.mp hlen
          rw [hnil] at hg
          exact absurd hg (by simp)
      · next a0 hg0 =>
          by_cases hav0 : a0.isAvailable = true
          · simp [hav0]
          · rw [if_neg hav0]
            cases j with
            | zero =>
                exfalso
                rw [Nat.add_zero, hg0] at hg
                cases hg
                exact hav0 hav
            | succ j' =>
                apply ih
                refine ⟨j', by omega, a, ?_, hav⟩
                rw [show idx + 1 + j' = idx + (j' + 1) from by omega]
                exact hg

/-- Starting the wraparound walk at any offset below the length still reaches
any index below the length. -/
theorem mod_shift_hits (len i0 k : Nat) (hk : k < len) (hi0 : i0 < len) :
    (i0 + (k + len - i0) % len) % len = k := by
  have h1 : (i0 + (k + len - i0) % len) % len = (i0 + (k + len - i0)) % len :=
    Nat.ModEq.add_left i0 (Nat.mod_modEq (k + len - i0) len)
  have h2 : i0 + (k + len - i0) = k + len := by omega
  rw [h1, h2, Nat.add_mod_right, Nat.mod_eq_of_lt hk]

/-- C8: getAccountRandomly returns none on an empty pool; anything it returns
is an account of the pool satisfying the availability predicate; it returns an
available account whenever the pool holds at least one; and it returns none
when no account of the pool is available. -/
theorem accountPool_getAccountRandomly_spec (pool : List AccountData) (seed : Nat) :
    (pool = [] → getAccountRandomly pool seed = none) ∧
    (∀ a, getAccountRandomly pool seed = some a → a ∈ pool ∧ a.isAvailable = true) ∧
    ((∃ a ∈ pool, a.isAvailable = true) →
        ∃ a, getAccountRandomly pool seed = some a ∧ a.isAvailable = true) ∧
    ((∀ a ∈ pool, a.isAvailable = false) → getAccountRandomly pool seed = none) := by
  have hsound : ∀ a, getAccountRandomly pool seed = some a →
      a ∈ pool ∧ a.isAvailable = true := by
    intro a h
    rw [getAccountRandomly] at h
    split at h
    · exact absurd h (by simp)
    · exact probePool_sound pool _ _ a h
  refine ⟨?_, hsound, ?_, ?_⟩
  · intro h
    rw [h]
    rfl
  · rintro ⟨a, ha, hav⟩
    have hlen : 0 < pool.length := List.length_pos.mpr (List.ne_nil_of_mem ha)
    rw [getAccountRandomly, if_neg (by omega)]
    have hcomp : (probePool pool (seed % pool.length) pool.length).isSome = true := by
      apply probePool_complete
      obtain ⟨k, hka⟩ := List.mem_iff_get?.mp ha
      have hk : k < pool.length := (List.get?_eq_some.mp hka).1
      refine ⟨(k + pool.length - seed % pool.length) % pool.length,
        Nat.mod_lt _ hlen, a, ?_, hav⟩
      rw [mod_shift_hits pool.length (seed % pool.length) k hk (Nat.mod_lt _ hlen)]
      exact hka
    obtain ⟨a', ha'⟩ := Option.isSome_iff_exists.mp hcomp
    exact ⟨a', ha', (probePool_sound pool _ _ a' ha').2⟩
  · intro hall
    cases hres : getAccountRandomly pool seed with
    | none => rfl
    | some a =>
        obtain ⟨hmem, hav⟩ := hsound a hres
        rw [hall a hmem] at hav
        exact absurd hav (by simp)

/-- Witness for C8: the empty pool, a pool with an available account, and a
pool whose only account is saturated. -/
theorem accountPool_getAccountRandomly_spec_witness :
    getAccountRandomly [] 5 = none ∧
    (∃ a, getAccountRandomly [saturatedAccount, availableAccount] 1 = some a ∧
        a.isAvailable = true) ∧
    getAccountRandomly [saturatedAccount] 0 = none := by
  refine ⟨(accountPool_getAccountRandomly_spec [] 5).1 rfl,
    (accountPool_getAccountRandomly_spec [saturatedAccount, availableAccount] 1).2.2.1
      ⟨availableAccount, by decide, by decide⟩,
    (accountPool_getAccountRandomly_spec [saturatedAccount] 0).2.2.2 (by decide)⟩

/-! ## View map lemmas -/

theorem mapLookup_mapErase_self (k : String) (m : AccountMap) :
    mapLookup k (mapErase k m) = none := by
  induction m with
  | nil => rfl
  | cons p t ih =>
      rw [mapErase, List.filter_cons]
      by_cases h : p.1 = k
      · rw [if_neg (by simp [h])]
        exact ih
      · rw [if_pos (by simp [h])]
        rw [mapLookup, List.find?_cons_of_neg _ (by simp [h])]
        exact ih

theorem mapLookup_mapEmplace_ne (k k' : String) (v : Nat) (h : k' ≠ k) (m : AccountMap) :
    mapLookup k' (mapEmplace k v m) = mapLookup k' m := by
  rw [mapEmplace]
  split
  · rfl
  · rw [mapLookup, List.find?_append]
    have h2 : List.find? (fun p => decide (p.1 = k')) [(k, v)] = none := by
      simp [Ne.symm h]
    rw [h2, Option.or_none]
    rfl

theorem mapLookup_mapEmplace_self_none (k : String) (v : Nat) (m : AccountMap)
    (h : mapLookup k m = none) :
    mapLookup k (mapEmplace k v m) = some v := by
  have hfind : m.find? (fun p => decide (p.1 = k)) = none :=
    Option.map_eq_none'.mp h
  have hany : (m.any fun p => p.1 = k) = false := by
    rw [List.any_eq_false]
    intro p hp
    simpa using List.find?_eq_none.mp hfind p hp
  rw [mapEmplace, if_neg (by rw [hany]; simp)]
  rw [mapLookup, List.find?_append, hfind, Option.none_or]
  simp

theorem mapLookup_mapEmplace_self_some (k : String) (v j : Nat) (m : AccountMap)
    (h : mapLookup k m = some j) :
    mapLookup k (mapEmplace k v m) = some j := by
  rw [mapEmplace]
  split
  · exact h
  · next hany =>
      exfalso
      obtain ⟨p, hp, hpj⟩ := Option.map_eq_some'.mp h
      have hmem := List.mem_of_find?_eq_some hp
      have hpk := List.find?_some hp
      exact hany (List.any_eq_true.mpr ⟨p, hmem, hpk⟩)

theorem storeLookup_storeUpdate_self (aid : Nat) (d d0 : AccountData)
    (store : List (Nat × AccountData)) (h : storeLookup aid store = some d0) :
    storeLookup aid (storeUpdate aid d store) = some d := by
  induction store with
  | nil => exact absurd h (by simp [storeLookup])
  | cons p t ih =>
      by_cases hp : p.1 = aid
      · simp [storeLookup, storeUpdate, List.find?_cons, hp]
      · have h' : storeLookup aid t = some d0 := by
          simpa [storeLookup, List.find?_cons, hp] using h
        simpa [storeLookup, storeUpdate, List.find?_cons, hp] using ih h'

theorem zip_self_map {α β : Type _} (l : List α) (g : α → β) :
    l.zip (l.map g) = l.map fun v => (v, g v) := by
  induction l with
  | nil => rfl
  | cons x t ih => simp [ih]

/-! ## Account pool update reductions -/

theorem onAccountUpdate_create_eq (s : PoolState) (desc : AccountDesc)
    (hnone : mapLookup desc.uri s.defaultView = none) :
    onAccountUpdate s desc.uri (some desc) = setupNewAccount s desc := by
  simp only [onAccountUpdate, hnone, ne_eq, not_true_eq_false, reduceIte]

theorem onAccountUpdate_update_eq (s : PoolState) (desc : AccountDesc) (aid : Nat)
    (oldData : AccountData) (hfind : mapLookup desc.uri s.defaultView = some aid)
    (hstore : storeLookup aid s.store = some oldData) :
    onAccountUpdate s desc.uri (some desc) =
      { s with
        store := storeUpdate aid (updatedData oldData desc) s.store,
        authInfos := handlePassword desc (parseAddr desc.uri)
          (removeFirstAuthInfo (parseAddr desc.uri).user (parseAddr desc.uri).domain
            s.authInfos),
        views := s.views.map fun v =>
          if formatAccount v.tmpl (updatedData oldData desc) =
              formatAccount v.tmpl oldData then v
          else
            { v with
              view := mapEmplace (formatAccount v.tmpl (updatedData oldData desc)) aid
                (mapErase (formatAccount v.tmpl oldData) v.view) } } := by
  simp only [onAccountUpdate, hfind, hstore, ne_eq, not_true_eq_false, reduceIte]
  rw [zip_self_map, List.map_map]
  rfl

theorem onAccountUpdate_delete_eq (s : PoolState) (uri : String) (aid : Nat)
    (data : AccountData) (hfind : mapLookup uri s.defaultView = some aid)
    (hstore : storeLookup aid s.store = some data) :
    onAccountUpdate s uri none =
      { s with
        coreAccounts := s.coreAccounts.filter fun i => !(i = aid),
        views := s.views.map fun v =>
          { v with view := mapErase (formatAccount v.tmpl data) v.view },
        defaultView := mapErase uri s.defaultView } := by
  simp only [onAccountUpdate, hfind, hstore]

/-- C9, counterexample to the claim as stated: updating the second account of
collisionState moves its alias-view key from y to x, a key already bound to
the first account.  The account data is updated in place and the old binding
under y is erased, but no binding under the new key x is inserted for the
updated account: the view keeps x bound to account 0 and holds no binding at
all for account 1. -/
theorem accountPool_onAccountUpdate_collision_counterexample :
    formatAccount [.fieldAlias] (updatedData accountBeingUpdated collisionDesc) = "x" ∧
    formatAccount [.fieldAlias] accountBeingUpdated = "y" ∧
    storeLookup 1 (onAccountUpdate collisionState "sip:b@h" (some collisionDesc)).store =
      some (updatedData accountBeingUpdated collisionDesc) ∧
    (onAccountUpdate collisionState "sip:b@h" (some collisionDesc)).views =
      [{ tmpl := [.fieldAlias], view := [("x", 0)] }] ∧
    mapLookup "x" [("x", 0)] = some 0 := by
  refine ⟨rfl, rfl, ?_, ?_, rfl⟩ <;> decide

/-- C9, amended: on an account-update message, a record for a uri absent from
the default view creates a new account and enqueues it for registration; a
record for a present uri updates the account in place (alias, identity,
credentials, outbound proxy) and, in every secondary view whose formatter now
yields a different key for the account, erases the old binding and inserts a
binding under the new key unless that key is already bound, in which case the
new binding is discarded; a missing record erases the account from the
default view and every secondary view and removes it from the core. -/
theorem accountPool_onAccountUpdate_spec :
    (∀ (s : PoolState) (desc : AccountDesc),
        mapLookup desc.uri s.defaultView = none → desc.uri ≠ "" →
        (onAccountUpdate s desc.uri (some desc)).store = s.store ++ [(s.nextId,
          { uri := parseAddr desc.uri, aliasName := desc.aliasName,
            outboundProxy := desc.outboundProxy, maxCalls := s.maxCallsPerLine })] ∧
        (onAccountUpdate s desc.uri (some desc)).queue = s.queue ++ [s.nextId] ∧
        (onAccountUpdate s desc.uri (some desc)).defaultView = s.defaultView ∧
        (onAccountUpdate s desc.uri (some desc)).views = s.views ∧
        (onAccountUpdate s desc.uri (some desc)).coreAccounts = s.coreAccounts) ∧
    (∀ (s : PoolState) (desc : AccountDesc) (aid : Nat) (oldData : AccountData),
        mapLookup desc.uri s.defaultView = some aid →
        storeLookup aid s.store = some oldData →
        storeLookup aid (onAccountUpdate s desc.uri (some desc)).store =
          some (updatedData oldData desc) ∧
        (onAccountUpdate s desc.uri (some desc)).authInfos =
          handlePassword desc (parseAddr desc.uri)
            (removeFirstAuthInfo (parseAddr desc.uri).user (parseAddr desc.uri).domain
              s.authInfos) ∧
        (onAccountUpdate s desc.uri (some desc)).defaultView = s.defaultView ∧
        (onAccountUpdate s desc.uri (some desc)).queue = s.queue ∧
        (∀ i v, s.views.get? i = some v →
          ∃ v', (onAccountUpdate s desc.uri (some desc)).views.get? i = some v' ∧
            v'.tmpl = v.tmpl ∧
            (formatAccount v.tmpl (updatedData oldData desc) =
                formatAccount v.tmpl oldData → v' = v) ∧
            (formatAccount v.tmpl (updatedData oldData desc) ≠
                formatAccount v.tmpl oldData →
              mapLookup (formatAccount v.tmpl oldData) v'.view = none ∧
              (mapLookup (formatAccount v.tmpl (updatedData oldData desc))
                  (mapErase (formatAccount v.tmpl oldData) v.view) = none →
                mapLookup (formatAccount v.tmpl (updatedData oldData desc)) v'.view =
                  some aid) ∧
              (∀ j, mapLookup (formatAccount v.tmpl (updatedData oldData desc))
                  (mapErase (formatAccount v.tmpl oldData) v.view) = some j →
                mapLookup (formatAccount v.tmpl (updatedData oldData desc)) v'.view =
                  some j)))) ∧
    (∀ (s : PoolState) (uri : String) (aid : Nat) (data : AccountData),
        mapLookup uri s.defaultView = some aid →
        storeLookup aid s.store = some data →
        mapLookup uri (onAccountUpdate s uri none).defaultView = none ∧
        aid ∉ (onAccountUpdate s uri none).coreAccounts ∧
        (onAccountUpdate s uri none).store = s.store ∧
        (onAccountUpdate s uri none).queue = s.queue ∧
        (∀ i v, s.views.get? i = some v →
          ∃ v', (onAccountUpdate s uri none).views.get? i = some v' ∧
            v'.tmpl = v.tmpl ∧
            mapLookup (formatAccount v.tmpl data) v'.view = none)) := by
  refine ⟨?_, ?_, ?_⟩
  · intro s desc hnone hne
    rw [onAccountUpdate_create_eq s desc hnone, setupNewAccount, if_neg hne]
    exact ⟨rfl, rfl, rfl, rfl, rfl⟩
  · intro s desc aid oldData hfind hstore
    rw [onAccountUpdate_update_eq s desc aid oldData hfind hstore]
    refine ⟨storeLookup_storeUpdate_self aid _ oldData s.store hstore, rfl, rfl, rfl, ?_⟩
    intro i v hv
    simp only [List.get?_map, hv, Option.map_some']
    by_cases hkey : formatAccount v.tmpl (updatedData oldData desc) =
        formatAccount v.tmpl oldData
    · refine ⟨v, by rw [if_pos hkey], rfl, fun _ => rfl, fun hne => absurd hkey hne⟩
    · refine ⟨{ v with
          view := mapEmplace (formatAccount v.tmpl (updatedData oldData desc)) aid
            (mapErase (formatAccount v.tmpl oldData) v.view) },
        by rw [if_neg hkey], rfl, fun heq => absurd heq hkey, fun _ => ?_⟩
      refine ⟨?_, ?_, ?_⟩
      · rw [mapLookup_mapEmplace_ne _ _ _ (fun heq => hkey heq.symm) _,
          mapLookup_mapErase_self]
      · intro hmiss
        exact mapLookup_mapEmplace_self_none _ aid _ hmiss
      · intro j hj
        exact mapLookup_mapEmplace_self_some _ aid j _ hj
  · intro s uri aid data hfind hstore
    rw [onAccountUpdate_delete_eq s uri aid data hfind hstore]
    refine ⟨mapLookup_mapErase_self uri s.defaultView, ?_, rfl, rfl, ?_⟩
    · intro hmem
      have := (List.mem_filter.mp hmem).2
      simp at this
    · intro i v hv
      simp only [List.get?_map, hv, Option.map_some']
      exact ⟨_, rfl, rfl, mapLookup_mapErase_self _ _⟩

/-- Witness for C9 on concrete pool states: a creation for a fresh uri, the
collision update of collisionState, and the deletion of the second account. -/
theorem accountPool_onAccountUpdate_spec_witness :
    ((onAccountUpdate collisionState "sip:c@h"
        (some { collisionDesc with uri := "sip:c@h" })).queue = [2]) ∧
    (storeLookup 1 (onAccountUpdate collisionState "sip:b@h"
        (some collisionDesc)).store =
      some (updatedData accountBeingUpdated collisionDesc)) ∧
    mapLookup "sip:b@h" (onAccountUpdate collisionState "sip:b@h" none).defaultView =
      none := by
  refine ⟨?_, ?_, ?_⟩
  · have h := accountPool_onAccountUpdate_spec.1 collisionState
      { collisionDesc with uri := "sip:c@h" } (by decide) (by decide)
    rw [h.2.1]
    rfl
  · exact (accountPool_onAccountUpdate_spec.2.1 collisionState collisionDesc 1
      accountBeingUpdated (by decide) (by decide)).1
  · exact (accountPool_onAccountUpdate_spec.2.2 collisionState "sip:b@h" 1
      accountBeingUpdated (by decide) (by decide)).1

/-- C10: an account-update message whose published uri differs from the uri
field of the loaded account record aborts the operation and leaves the whole
pool state unchanged. -/
theorem accountPool_onAccountUpdate_uriMismatch_noop (s : PoolState) (uri : String)
    (desc : AccountDesc) (h : uri ≠ desc.uri) :
    onAccountUpdate s uri (some desc) = s := by
  simp only [onAccountUpdate, ne_eq, h, not_false_eq_true, reduceIte]

/-- Witness for C10: a publish for the second account paired with a record
carrying a third uri changes nothing. -/
theorem accountPool_onAccountUpdate_uriMismatch_noop_witness :
    onAccountUpdate collisionState "sip:b@h"
        (some { collisionDesc with uri := "sip:c@h" }) = collisionState :=
  accountPool_onAccountUpdate_uriMismatch_noop collisionState "sip:b@h"
    { collisionDesc with uri := "sip:c@h" } (by decide)

end Flexisip
